import Mathlib

/-!
Verification of the voting dapp core (src/src-tauri/src/main.rs).

The Rust code is shallowly embedded: the persisted store and the wire
format are modelled at the level of JSON values (serde_json is modelled
as encoders/decoders between the Rust data types and a `Json` inductive),
file reads are an explicit inductive result, and the side effects of the
event handlers and of the user-facing command are returned as an explicit
`Effect` list in program order (asynchronous spawns are represented by the
effect they enqueue).
-/

namespace VotingDapp

/-- JSON values: the persistence and wire format.  serde_json is modelled
at the level of JSON values rather than byte strings. -/
inductive Json where
  | str (s : String)
  | num (n : Nat)
  | bool (b : Bool)
  | arr (elems : List Json)
  | obj (fields : List (String × Json))

/-- `struct Vote { id: usize, name: String, public: bool }` (main.rs 82-87). -/
structure Vote where
  id : Nat
  name : String
  public : Bool
deriving DecidableEq

/-- `type Votes = Vec<Vote>` (main.rs 47). -/
abbrev Votes := List Vote

/-- `enum ListMode { ALL, One(String) }` (main.rs 89-93). -/
inductive ListMode where
  | ALL
  | One (peer : String)
deriving DecidableEq

/-- `struct ListRequest { mode: ListMode }` (main.rs 95-98). -/
structure ListRequest where
  mode : ListMode
deriving DecidableEq

/-- `struct ListResponse { mode: ListMode, data: Votes, receiver: String }`
(main.rs 100-105). -/
structure ListResponse where
  mode : ListMode
  data : Votes
  receiver : String
deriving DecidableEq

/-- serde Serialize for `Vote`: a JSON object with the fields in
declaration order. -/
def encodeVote (v : Vote) : Json :=
  .obj [("id", .num v.id), ("name", .str v.name), ("public", .bool v.public)]

/-- serde Serialize for `Votes`: a JSON array. -/
def encodeVotes (votes : Votes) : Json :=
  .arr (votes.map encodeVote)

/-- serde Serialize for `ListMode`: externally tagged enum encoding, a unit
variant serializes as its name string, a newtype variant as a one-field map. -/
def encodeListMode : ListMode → Json
  | .ALL => .str "ALL"
  | .One peer => .obj [("One", .str peer)]

/-- serde Serialize for `ListRequest`. -/
def encodeListRequest (r : ListRequest) : Json :=
  .obj [("mode", encodeListMode r.mode)]

/-- serde Serialize for `ListResponse`. -/
def encodeListResponse (r : ListResponse) : Json :=
  .obj [("mode", encodeListMode r.mode), ("data", encodeVotes r.data),
        ("receiver", .str r.receiver)]

/-- serde Deserialize for `Vote`: all declared fields must be present
(looked up by name, position irrelevant), unknown fields are ignored. -/
def decodeVote : Json → Option Vote
  | .obj fields =>
    match List.lookup "id" fields, List.lookup "name" fields,
          List.lookup "public" fields with
    | some (.num i), some (.str n), some (.bool b) => some ⟨i, n, b⟩
    | _, _, _ => none
  | _ => none

/-- Element-wise deserialization of a JSON array's contents as votes. -/
def decodeVoteList : List Json → Option Votes
  | [] => some []
  | j :: js =>
    match decodeVote j, decodeVoteList js with
    | some v, some vs => some (v :: vs)
    | _, _ => none

/-- serde Deserialize for `Votes`. -/
def decodeVotes : Json → Option Votes
  | .arr elems => decodeVoteList elems
  | _ => none

/-- serde Deserialize for `ListMode`: accepts the variant-name string for
the unit variant and a one-entry map for the newtype variant. -/
def decodeListMode : Json → Option ListMode
  | .str s => if s = "ALL" then some .ALL else none
  | .obj [("One", .str peer)] => some (.One peer)
  | _ => none

/-- serde Deserialize for `ListRequest`: only the `mode` field is read;
any other fields present in the object are ignored. -/
def decodeListRequest : Json → Option ListRequest
  | .obj fields =>
    match List.lookup "mode" fields with
    | some m => (decodeListMode m).map ListRequest.mk
    | none => none
  | _ => none

/-- serde Deserialize for `ListResponse`: `mode`, `data` and `receiver`
must all be present. -/
def decodeListResponse : Json → Option ListResponse
  | .obj fields =>
    match List.lookup "mode" fields, List.lookup "data" fields,
          List.lookup "receiver" fields with
    | some m, some d, some (.str recv) =>
      match decodeListMode m, decodeVotes d with
      | some mo, some votes => some ⟨mo, votes, recv⟩
      | _, _ => none
    | _, _, _ => none
  | _ => none

/-! ## Local record store (main.rs 195-238)

File system access is made explicit: a read yields either the file's
JSON content or an I/O error of some kind, and a write produces the JSON
content that overwrites the file. -/

/-- Outcome kinds of `fs::read`: the file may be missing, or the read may
fail for another reason (e.g. permissions). -/
inductive IOErrorKind where
  | notFound
  | permissionDenied
  | other
deriving DecidableEq

/-- Result of `fs::read(get_storage_file_path())`. -/
inductive FileRead where
  | ok (content : Json)
  | ioError (kind : IOErrorKind)

/-- Store errors observable by callers (the boxed error of the Rust
`Result` alias, main.rs 46): here only deserialization failure, since
`read_local_votes` converts every read error into an empty set. -/
inductive StoreError where
  | deserialize
deriving DecidableEq

/-- `read_local_votes` (main.rs 226-231): `Ok` bytes are deserialized (a
failure propagates as a store error); `Err(_e)` — any read error at all —
yields the empty vector. -/
def read_local_votes : FileRead → Except StoreError Votes
  | .ok content =>
    match decodeVotes content with
    | some votes => .ok votes
    | none => .error .deserialize
  | .ioError _ => .ok []

/-- `write_local_votes` (main.rs 233-238): serializes the full set; the
result is the new file content. -/
def write_local_votes (votes : Votes) : Json :=
  encodeVotes votes

/-- One step of `Iterator::max_by_key`: keep the running maximum, the
newer element winning ties. -/
def max_step (acc : Option Vote) (v : Vote) : Option Vote :=
  match acc with
  | none => some v
  | some w => if w.id > v.id then some w else some v

/-- `local_votes.iter().max_by_key(|r| r.id)` (main.rs 198): running
maximum by id, later elements win ties. -/
def max_by_key_id (votes : Votes) : Option Vote :=
  votes.foldl max_step none

/-- The id assigned to a freshly added vote (main.rs 198-201). -/
def next_id (votes : Votes) : Nat :=
  match max_by_key_id votes with
  | some v => v.id + 1
  | none => 0

/-- `add_vote` (main.rs 195-214) on the in-memory set: computes the next
id, appends the new vote with `public = false`, and returns it together
with the updated (persisted) set. -/
def add_vote (name : String) (votes : Votes) : Vote × Votes :=
  let vote : Vote := ⟨next_id votes, name, false⟩
  (vote, votes ++ [vote])

/-- `publish_vote` (main.rs 216-224) on the in-memory set: every vote
whose id matches gets `public = true`, all others are left as they are. -/
def publish_vote (id : Nat) (votes : Votes) : Votes :=
  votes.map fun r => if r.id = id then { r with public := true } else r

/-- The `ListResponse` built by `respond_with_public_votes`
(main.rs 158-174) from the local set it read: mode `ALL`, the given
receiver, and the `public` votes in store order. -/
def respond_with_public_votes (votes : Votes) (receiver : String) : ListResponse :=
  { mode := .ALL, data := votes.filter fun r => r.public, receiver := receiver }

/-! ## Event handlers and the user-facing command -/

/-- The fixed gossip topic (main.rs 51). -/
def topic : String := "votes"

/-- Observable side effects of the handlers, in program order.
`respondTrigger` is the spawn of `respond_with_public_votes` with the
given receiver (its `channelSend` happens asynchronously on the internal
response channel); `emitEvent` is `window.emit`; `publish` is
`floodsub.publish` on a topic; `logInfo` is console logging (message
text elided). -/
inductive Effect where
  | publish (topic : String) (payload : Json)
  | respondTrigger (receiver : String)
  | channelSend (resp : ListResponse)
  | emitEvent (name : String) (payload : Json)
  | logInfo

/-- Whether an effect publishes on the gossip substrate. -/
def Effect.isPublish : Effect → Bool
  | .publish _ _ => true
  | _ => false

/-- Whether an effect surfaces data towards the Event Bridge or the UI
collaborator (a send on the internal response channel, or a direct
window event). -/
def Effect.isForward : Effect → Bool
  | .channelSend _ => true
  | .emitEvent _ _ => true
  | _ => false

/-- `inject_event` for `FloodsubEvent::Message` (main.rs 123-156):
the payload is tried as a `ListResponse` first — if it decodes and its
`receiver` equals this peer's id the records are logged, otherwise
nothing happens; only if it fails to decode as a response is it tried as
a `ListRequest`, where `ALL` unconditionally spawns a response-build
addressed to the message source and `One(peer_id)` does so only when
`peer_id` equals this peer's id. -/
def inject_event_floodsub (selfId source : String) (payload : Json) : List Effect :=
  match decodeListResponse payload with
  | some resp =>
    if resp.receiver = selfId then [.logInfo] else []
  | none =>
    match decodeListRequest payload with
    | some req =>
      match req.mode with
      | .ALL => [.respondTrigger source]
      | .One peer_id =>
        if peer_id = selfId then [.respondTrigger source] else []
    | none => []

/-- `on_publish_vote` (main.rs 285-305): adds the vote to the store, then
spawns `respond_with_public_votes` with receiver `"any"`, and emits a
`get_votes` event holding the updated store. -/
def on_publish_vote (name : String) (votes : Votes) : Votes × List Effect :=
  let added := add_vote name votes
  (added.2,
    [.respondTrigger "any",
     .emitEvent "get_votes" (.obj [("votes", encodeVotes added.2)])])

/-- The Event Bridge's handling of a response drained from the internal
channel (main.rs 354-361): serialize it and emit it as a `new` event. -/
def bridge_forward (resp : ListResponse) : Effect :=
  .emitEvent "new" (encodeListResponse resp)

/-- `handle_list_recipes` (main.rs 250-283): a command whose first five
characters are `"ls r "` publishes a `ListRequest` on the topic — `ALL`
when the remainder is `"all"`, `One` of the remainder otherwise; any
other command logs the local votes.  The leading-pattern strip is
modelled on the character list. -/
def handle_list_recipes (cmd : String) : List Effect :=
  if cmd.data.take 5 = "ls r ".data then
    let rest : String := ⟨cmd.data.drop 5⟩
    if rest = "all" then [.publish topic (encodeListRequest ⟨.ALL⟩)]
    else [.publish topic (encodeListRequest ⟨.One rest⟩)]
  else [.logInfo]

/-! ## Discovery events and the gossip peer view (main.rs 176-193)

The floodsub and mdns behaviours are external library state.  Modelled
from the spec: the gossip substrate keeps a peer view with set semantics
(`add_to_view` is idempotent, `remove_from_view` deletes the peer), and
the discovery behaviour keeps one record per live discovery observation
(`has_node p` holds when some live record lists `p`; expired records are
dropped from that list before the `Expired` event is handed to the
application handler). -/

/-- Peer identifiers are opaque strings. -/
abbrev Peer := String

/-- `floodsub.add_node_to_partial_view` on the gossip peer view:
set-insert (idempotent). -/
def add_to_view (view : List Peer) (p : Peer) : List Peer :=
  if p ∈ view then view else view ++ [p]

/-- `floodsub.remove_node_from_partial_view` on the gossip peer view. -/
def remove_from_view (view : List Peer) (p : Peer) : List Peer :=
  view.erase p

/-- Combined library state the mdns handler acts on: the live discovery
records (one list entry per record, naming the peer it lists) and the
gossip peer view. -/
structure MdnsState where
  records : List Peer
  view : List Peer
deriving DecidableEq

/-- `mdns.has_node(&peer)`: some currently-known live discovery record
lists the peer. -/
def MdnsState.has_node (st : MdnsState) (p : Peer) : Bool :=
  st.records.contains p

/-- `MdnsEvent` (main.rs 178-190): a batch of newly discovered records or
a batch of expired records, each given by the peer it concerns. -/
inductive DiscoveryEvent where
  | discovered (peers : List Peer)
  | expired (peers : List Peer)

/-- `inject_event` for `MdnsEvent` (main.rs 176-193), together with the
library-side record bookkeeping: `Discovered` adds one record per entry
and inserts each peer into the view; `Expired` first drops the expired
records (the library does this before emitting the event), then the
handler removes each expired peer from the view only when
`!self.mdns.has_node(&peer)` — i.e. when no remaining record lists it. -/
def inject_event_mdns : MdnsState → DiscoveryEvent → MdnsState
  | st, .discovered l =>
    { records := st.records ++ l,
      view := l.foldl add_to_view st.view }
  | st, .expired l =>
    let records' := st.records.diff l
    { records := records',
      view := l.foldl
        (fun v p => if records'.contains p then v else remove_from_view v p)
        st.view }

/-- Running a sequence of `add_vote` calls, threading the store. -/
def addSeq : List String → Votes → Votes
  | [], votes => votes
  | n :: ns, votes => addSeq ns (add_vote n votes).2

/-- The ids returned by a sequence of `add_vote` calls, in call order. -/
def assignedIds : List String → Votes → List Nat
  | [], _ => []
  | n :: ns, votes => (add_vote n votes).1.id :: assignedIds ns (add_vote n votes).2

/-! ## Serialization round trips -/

theorem decodeVote_encodeVote (v : Vote) : decodeVote (encodeVote v) = some v := rfl

theorem decodeVoteList_map_encodeVote (l : Votes) :
    decodeVoteList (l.map encodeVote) = some l := by
  induction l with
  | nil => rfl
  | cons v vs ih => simp [decodeVoteList, decodeVote_encodeVote, ih]

theorem decodeVotes_encodeVotes (l : Votes) :
    decodeVotes (encodeVotes l) = some l := by
  simp [decodeVotes, encodeVotes, decodeVoteList_map_encodeVote]

theorem decodeListMode_encodeListMode (m : ListMode) :
    decodeListMode (encodeListMode m) = some m := by
  cases m <;> rfl

theorem decodeListResponse_encodeListResponse (r : ListResponse) :
    decodeListResponse (encodeListResponse r) = some r := by
  obtain ⟨m, d, recv⟩ := r
  simp [decodeListResponse, encodeListResponse, List.lookup,
        decodeListMode_encodeListMode, decodeVotes_encodeVotes]

theorem decodeListRequest_encodeListResponse (r : ListResponse) :
    decodeListRequest (encodeListResponse r) = some ⟨r.mode⟩ := by
  obtain ⟨m, d, recv⟩ := r
  simp [decodeListRequest, encodeListResponse, List.lookup,
        decodeListMode_encodeListMode]

theorem decodeListResponse_encodeListRequest (r : ListRequest) :
    decodeListResponse (encodeListRequest r) = none := by
  simp [decodeListResponse, encodeListRequest, List.lookup]

theorem decodeListRequest_encodeListRequest (r : ListRequest) :
    decodeListRequest (encodeListRequest r) = some r := by
  obtain ⟨m⟩ := r
  simp [decodeListRequest, encodeListRequest, List.lookup,
        decodeListMode_encodeListMode]

/-! ## Properties of the running maximum and of id assignment -/

theorem foldl_max_step_some (l : Votes) (a : Vote) :
    ∃ w, l.foldl max_step (some a) = some w ∧ a.id ≤ w.id := by
  induction l generalizing a with
  | nil => exact ⟨a, rfl, le_refl _⟩
  | cons x xs ih =>
    by_cases h : a.id > x.id
    · simpa [max_step, h] using ih a
    · obtain ⟨w, hw, hle⟩ := ih x
      exact ⟨w, by simpa [max_step, h] using hw, le_trans (le_of_not_lt h) hle⟩

theorem foldl_max_step_ge (l : Votes) (acc : Option Vote) (v : Vote) (hv : v ∈ l) :
    ∃ w, l.foldl max_step acc = some w ∧ v.id ≤ w.id := by
  induction l generalizing acc with
  | nil => cases hv
  | cons x xs ih =>
    rcases List.mem_cons.mp hv with rfl | hmem
    · have hstep : ∃ y, max_step acc v = some y ∧ v.id ≤ y.id := by
        cases acc with
        | none => exact ⟨v, rfl, le_refl _⟩
        | some w =>
          by_cases h : w.id > v.id
          · exact ⟨w, by simp [max_step, h], le_of_lt h⟩
          · exact ⟨v, by simp [max_step, h], le_refl _⟩
      obtain ⟨y, hy, hvy⟩ := hstep
      obtain ⟨w, hw, hyw⟩ := foldl_max_step_some xs y
      exact ⟨w, by simpa [hy] using hw, le_trans hvy hyw⟩
    · exact ih (max_step acc x) hmem

theorem foldl_max_step_mem (l : Votes) (acc : Option Vote) (w : Vote)
    (h : l.foldl max_step acc = some w) : w ∈ l ∨ acc = some w := by
  induction l generalizing acc with
  | nil => exact Or.inr h
  | cons x xs ih =>
    rcases ih (max_step acc x) h with hmem | hacc
    · exact Or.inl (List.mem_cons_of_mem _ hmem)
    · cases acc with
      | none =>
        simp only [max_step] at hacc
        exact Or.inl (List.mem_cons.mpr (Or.inl (Option.some.inj hacc).symm))
      | some a =>
        simp only [max_step] at hacc
        split at hacc
        · exact Or.inr hacc
        · exact Or.inl (List.mem_cons.mpr (Or.inl (Option.some.inj hacc).symm))

theorem mem_lt_next_id (votes : Votes) (v : Vote) (hv : v ∈ votes) :
    v.id < next_id votes := by
  obtain ⟨w, hw, hle⟩ := foldl_max_step_ge votes none v hv
  have : next_id votes = w.id + 1 := by
    simp [next_id, max_by_key_id, hw]
  omega

theorem next_id_eq_max_succ (votes : Votes) (hne : votes ≠ []) :
    ∃ m, m ∈ votes ∧ next_id votes = m.id + 1 ∧ ∀ w ∈ votes, w.id ≤ m.id := by
  obtain ⟨x, xs, rfl⟩ := List.exists_cons_of_ne_nil hne
  obtain ⟨m, hm, _⟩ := foldl_max_step_some xs x
  have hmax : max_by_key_id (x :: xs) = some m := by
    simpa [max_by_key_id, max_step] using hm
  have hmem : m ∈ x :: xs := by
    rcases foldl_max_step_mem (x :: xs) none m hmax with h | h
    · exact h
    · cases h
  refine ⟨m, hmem, by simp [next_id, hmax], fun w hw => ?_⟩
  obtain ⟨w', hw', hle⟩ := foldl_max_step_ge (x :: xs) none w hw
  have heq : w' = m := Option.some.inj (hw'.symm.trans hmax)
  exact heq ▸ hle

theorem mem_addSeq_of_mem (names : List String) (votes : Votes) (v : Vote)
    (hv : v ∈ votes) : v ∈ addSeq names votes := by
  induction names generalizing votes with
  | nil => exact hv
  | cons n ns ih => exact ih _ (List.mem_append_left _ hv)

theorem lt_assignedIds_of_mem (names : List String) (votes : Votes) (v : Vote)
    (hv : v ∈ votes) : ∀ b ∈ assignedIds names votes, v.id < b := by
  induction names generalizing votes with
  | nil => intro b hb; cases hb
  | cons n ns ih =>
    intro b hb
    rcases List.mem_cons.mp hb with rfl | hb'
    · exact mem_lt_next_id votes v hv
    · exact ih _ (List.mem_append_left _ hv) b hb'

theorem assignedIds_pairwise (names : List String) (votes : Votes) :
    (assignedIds names votes).Pairwise (· < ·) := by
  induction names generalizing votes with
  | nil => exact List.Pairwise.nil
  | cons n ns ih =>
    refine List.pairwise_cons.mpr ⟨fun b hb => ?_, ih _⟩
    have hmem : (⟨next_id votes, n, false⟩ : Vote) ∈ (add_vote n votes).2 := by
      simp [add_vote]
    exact lt_assignedIds_of_mem ns (add_vote n votes).2 _ hmem b hb

theorem addSeq_ids_nodup (names : List String) (votes : Votes)
    (h : (votes.map Vote.id).Nodup) : ((addSeq names votes).map Vote.id).Nodup := by
  induction names generalizing votes with
  | nil => exact h
  | cons n ns ih =>
    refine ih _ ?_
    simp only [add_vote, List.map_append, List.map_cons, List.map_nil]
    rw [List.nodup_append]
    refine ⟨h, List.nodup_singleton _, ?_⟩
    intro a ha hb
    simp only [List.mem_singleton] at hb
    obtain ⟨v, hv, rfl⟩ := List.mem_map.mp ha
    exact Nat.ne_of_lt (mem_lt_next_id votes v hv) hb

/-! ## Peer view helper lemmas -/

theorem mem_add_to_view_self (view : List Peer) (p : Peer) : p ∈ add_to_view view p := by
  unfold add_to_view
  split
  · assumption
  · simp

theorem mem_add_to_view_of_mem (view : List Peer) (p q : Peer) (h : p ∈ view) :
    p ∈ add_to_view view q := by
  unfold add_to_view
  split
  · exact h
  · exact List.mem_append_left _ h

theorem mem_foldl_add_of_mem (l : List Peer) (view : List Peer) (p : Peer)
    (h : p ∈ view) : p ∈ l.foldl add_to_view view := by
  induction l generalizing view with
  | nil => exact h
  | cons q qs ih => exact ih _ (mem_add_to_view_of_mem view p q h)

theorem mem_foldl_add_of_mem_list (l : List Peer) (view : List Peer) (p : Peer)
    (h : p ∈ l) : p ∈ l.foldl add_to_view view := by
  induction l generalizing view with
  | nil => cases h
  | cons q qs ih =>
    rcases List.mem_cons.mp h with rfl | h'
    · exact mem_foldl_add_of_mem qs _ p (mem_add_to_view_self view p)
    · exact ih _ h'

theorem add_to_view_idem (view : List Peer) (p : Peer) :
    add_to_view (add_to_view view p) p = add_to_view view p := by
  by_cases hv : p ∈ view <;> simp [add_to_view, hv]

theorem mem_foldl_expired_keep (l : List Peer) (recs : List Peer) (view : List Peer)
    (p : Peer) (hp : p ∈ view) (hrec : recs.contains p = true) :
    p ∈ l.foldl (fun v q => if recs.contains q then v else remove_from_view v q) view := by
  induction l generalizing view with
  | nil => exact hp
  | cons q qs ih =>
    refine ih _ ?_
    show p ∈ (if recs.contains q = true then view else remove_from_view view q)
    by_cases hq : recs.contains q = true
    · rw [if_pos hq]
      exact hp
    · have hne : p ≠ q := fun heq => hq (heq ▸ hrec)
      rw [if_neg hq]
      exact (List.mem_erase_of_ne hne).mpr hp

/-! ## Claim theorems -/

/-- C1 (counterexample): the claim says `on_publish_vote` builds a
`ListRequest` with mode `All`, serializes it, and publishes it on the
fixed gossip topic.  It does not: at the concrete input (name `"Rust"`,
empty store) none of its effects is a gossip publish — the user-facing
command never touches the floodsub topic. -/
theorem on_publish_vote_no_gossip_publish :
    ((on_publish_vote "Rust" []).2.any Effect.isPublish) = false ∧
    (on_publish_vote "Rust" []).2 ≠ [] := by
  exact ⟨rfl, by simp [on_publish_vote]⟩

/-- C1 (amended): `on_publish_vote` performs `add` (the returned store is
the one `add_vote` persisted), publishes nothing on the gossip topic; in
place of the claimed `All` broadcast it spawns a local response-build
with receiver `"any"` (whose `ListResponse` is enqueued on the internal
channel and later emitted by the Event Bridge as a `new` event), and it
emits an updated `get_votes` event holding the new store.  The `All`
request publication the claim describes lives in `handle_list_recipes`
(the `"ls r all"` command), which `on_publish_vote` never invokes. -/
theorem on_publish_vote_spec (name : String) (votes : Votes) :
    (on_publish_vote name votes).1 = (add_vote name votes).2 ∧
    ((on_publish_vote name votes).2.any Effect.isPublish) = false ∧
    Effect.respondTrigger "any" ∈ (on_publish_vote name votes).2 ∧
    Effect.emitEvent "get_votes"
        (Json.obj [("votes", encodeVotes (add_vote name votes).2)])
      ∈ (on_publish_vote name votes).2 ∧
    handle_list_recipes "ls r all" = [Effect.publish topic (encodeListRequest ⟨.ALL⟩)] := by
  refine ⟨rfl, rfl, ?_, ?_, ?_⟩
  · simp [on_publish_vote]
  · simp [on_publish_vote]
  · rfl

/-- C2 (counterexample): the claim says an inbound `ListResponse` whose
`receiver` equals this peer's identifier is surfaced to the Event Bridge
and forwarded to the UI collaborator.  At the concrete input — a payload
that decodes to a response addressed to `"peerSelf"`, handled by the peer
`"peerSelf"` itself — the handler produces no channel send and no window
event: the matching response is merely logged. -/
theorem inbound_response_not_forwarded :
    decodeListResponse
        (encodeListResponse ⟨.ALL, [⟨0, "A", true⟩], "peerSelf"⟩)
      = some ⟨.ALL, [⟨0, "A", true⟩], "peerSelf"⟩ ∧
    ((inject_event_floodsub "peerSelf" "peerSrc"
        (encodeListResponse ⟨.ALL, [⟨0, "A", true⟩], "peerSelf"⟩)).any
      Effect.isForward) = false := by
  exact ⟨rfl, rfl⟩

/-- C2 (amended): for every inbound payload that decodes as a
`ListResponse`, the handler only logs it when its `receiver` equals this
peer's identifier and does nothing otherwise; in neither case is the
response surfaced to the Event Bridge channel or forwarded to the UI
collaborator — no inbound `ListResponse` ever reaches the UI.  (Only
locally built responses enqueued by `respond_with_public_votes` are
emitted as `new` events.) -/
theorem inject_event_response_spec (selfId source : String) (payload : Json)
    (resp : ListResponse) (h : decodeListResponse payload = some resp) :
    inject_event_floodsub selfId source payload =
      (if resp.receiver = selfId then [Effect.logInfo] else []) ∧
    ((inject_event_floodsub selfId source payload).any Effect.isForward) = false := by
  have hout : inject_event_floodsub selfId source payload =
      (if resp.receiver = selfId then [Effect.logInfo] else []) := by
    simp [inject_event_floodsub, h]
  refine ⟨hout, ?_⟩
  rw [hout]
  by_cases hr : resp.receiver = selfId <;> simp [hr, Effect.isForward]

/-- C2 (witness): the amended theorem applied to a concrete
self-addressed response. -/
theorem inject_event_response_spec_witness :
    inject_event_floodsub "wSelf" "wSource"
        (encodeListResponse ⟨.ALL, [], "wSelf"⟩) =
      (if ("wSelf" : String) = "wSelf" then [Effect.logInfo] else []) ∧
    ((inject_event_floodsub "wSelf" "wSource"
        (encodeListResponse ⟨.ALL, [], "wSelf"⟩)).any Effect.isForward) = false :=
  inject_event_response_spec "wSelf" "wSource"
    (encodeListResponse ⟨.ALL, [], "wSelf"⟩) ⟨.ALL, [], "wSelf"⟩ rfl

/-- C3 (counterexample): the claim says `read_local_votes` yields an
empty set exactly on file absence, and that every other I/O failure is
reported as a store error.  At the concrete input — a read failing with a
permission error, which is not file absence — the function still returns
the empty set successfully instead of an error. -/
theorem read_local_votes_ioerror_not_error :
    read_local_votes (.ioError .permissionDenied) = .ok [] ∧
    IOErrorKind.permissionDenied ≠ IOErrorKind.notFound := by
  exact ⟨rfl, by decide⟩

/-- C3 (amended): `read_local_votes` returns the empty `RecordSet` for
every failed read, whatever its I/O error kind (absence is just one
case); content that was read successfully is deserialized, a
deserialization failure being the only store error reported to the
caller. -/
theorem read_local_votes_spec :
    (∀ k, read_local_votes (.ioError k) = .ok []) ∧
    (∀ j votes, decodeVotes j = some votes → read_local_votes (.ok j) = .ok votes) ∧
    (∀ j, decodeVotes j = none → read_local_votes (.ok j) = .error .deserialize) := by
  refine ⟨fun k => rfl, fun j votes h => ?_, fun j h => ?_⟩ <;>
    simp [read_local_votes, h]

/-- C3 (witness): the amended theorem applied to malformed content and to
a concrete I/O error. -/
theorem read_local_votes_spec_witness :
    read_local_votes (.ok (Json.str "bad")) = .error .deserialize ∧
    read_local_votes (.ioError .other) = .ok [] :=
  ⟨read_local_votes_spec.2.2 (Json.str "bad") rfl, read_local_votes_spec.1 .other⟩

/-- C4: `add_vote` assigns the new record the id `max(existing ids) + 1`
(`0` on an empty store), appends it with `public = false`, returns it
together with the persisted full set; over any sequence of `add` calls
the assigned ids are strictly increasing in call order, and starting from
an empty store the resulting ids are unique within the store. -/
theorem add_vote_spec :
    (∀ name votes, (add_vote name votes).1 = ⟨next_id votes, name, false⟩ ∧
      (add_vote name votes).2 = votes ++ [(add_vote name votes).1]) ∧
    next_id [] = 0 ∧
    (∀ votes : Votes, votes ≠ [] →
      ∃ m, m ∈ votes ∧ next_id votes = m.id + 1 ∧ ∀ w ∈ votes, w.id ≤ m.id) ∧
    (∀ names, ((addSeq names []).map Vote.id).Nodup) ∧
    (∀ names votes, (assignedIds names votes).Pairwise (· < ·)) := by
  refine ⟨fun name votes => ⟨rfl, rfl⟩, rfl, next_id_eq_max_succ,
    fun names => addSeq_ids_nodup names [] (by simp), assignedIds_pairwise⟩

/-- C4 (witness): the theorem applied to the one-record store
`[{3, "x", false}]` and to the call sequence `["a", "b"]`. -/
theorem add_vote_spec_witness :
    (∃ m, m ∈ ([⟨3, "x", false⟩] : Votes) ∧
      next_id [⟨3, "x", false⟩] = m.id + 1 ∧
      ∀ w ∈ ([⟨3, "x", false⟩] : Votes), w.id ≤ m.id) ∧
    ((addSeq ["a", "b"] []).map Vote.id).Nodup ∧
    (assignedIds ["a", "b"] [⟨3, "x", false⟩]).Pairwise (· < ·) :=
  ⟨add_vote_spec.2.2.1 [⟨3, "x", false⟩] (by decide),
   add_vote_spec.2.2.2.1 ["a", "b"],
   add_vote_spec.2.2.2.2 ["a", "b"] [⟨3, "x", false⟩]⟩

/-- C5: the response built by `respond_with_public_votes` carries the
requester identifier as `receiver`, mode `ALL`, and exactly the `public`
records of the store in store order (a sublist of the store, all of whose
elements are public); on the store `[{0,A,true},{1,B,false},{2,C,true}]`
it yields exactly `[{0,A,true},{2,C,true}]`. -/
theorem respond_with_public_votes_spec :
    (∀ (votes : Votes) (receiver : String),
      (respond_with_public_votes votes receiver).receiver = receiver ∧
      (respond_with_public_votes votes receiver).mode = .ALL ∧
      (respond_with_public_votes votes receiver).data
        = votes.filter (fun r => r.public) ∧
      (respond_with_public_votes votes receiver).data.Sublist votes ∧
      ((respond_with_public_votes votes receiver).data.all fun r => r.public) = true) ∧
    respond_with_public_votes
        [⟨0, "A", true⟩, ⟨1, "B", false⟩, ⟨2, "C", true⟩] "requester"
      = ⟨.ALL, [⟨0, "A", true⟩, ⟨2, "C", true⟩], "requester"⟩ := by
  refine ⟨fun votes receiver => ⟨rfl, rfl, rfl, List.filter_sublist _, ?_⟩, rfl⟩
  simp only [respond_with_public_votes, List.all_eq_true]
  intro r hr
  exact (List.mem_filter.mp hr).2

/-- C6: an inbound payload that fails to decode as a `ListResponse` and
decodes as a `ListRequest` triggers a response-build addressed to the
message source unconditionally when its mode is `ALL`, and exactly when
the target equals this peer's identifier when its mode is `One(target)`
(otherwise nothing happens). -/
theorem inject_event_request_spec (selfId source : String) (payload : Json)
    (req : ListRequest) (hresp : decodeListResponse payload = none)
    (hreq : decodeListRequest payload = some req) :
    inject_event_floodsub selfId source payload =
      match req.mode with
      | .ALL => [Effect.respondTrigger source]
      | .One target =>
        if target = selfId then [Effect.respondTrigger source] else [] := by
  obtain ⟨mode⟩ := req
  cases mode <;> simp [inject_event_floodsub, hresp, hreq]

/-- C6 (witness): the theorem applied to a serialized `ALL` request and
to serialized `One` requests targeting this peer and another peer. -/
theorem inject_event_request_spec_witness :
    inject_event_floodsub "wSelf" "wSrc" (encodeListRequest ⟨.ALL⟩)
      = [Effect.respondTrigger "wSrc"] ∧
    inject_event_floodsub "wSelf" "wSrc" (encodeListRequest ⟨.One "wSelf"⟩)
      = [Effect.respondTrigger "wSrc"] ∧
    inject_event_floodsub "wSelf" "wSrc" (encodeListRequest ⟨.One "wOther"⟩)
      = [] := by
  refine ⟨?_, ?_, ?_⟩
  · have h := inject_event_request_spec "wSelf" "wSrc"
      (encodeListRequest ⟨.ALL⟩) ⟨.ALL⟩ rfl rfl
    simpa using h
  · have h := inject_event_request_spec "wSelf" "wSrc"
      (encodeListRequest ⟨.One "wSelf"⟩) ⟨.One "wSelf"⟩ rfl rfl
    simpa using h
  · have h := inject_event_request_spec "wSelf" "wSrc"
      (encodeListRequest ⟨.One "wOther"⟩) ⟨.One "wOther"⟩ rfl rfl
    simpa using h

/-- C7: `publish_vote` keeps the store's length and order, sets
`public = true` at exactly the positions whose record has the matching
id, returns every other record unchanged at its position, and is the
identity (a no-op, not an error) when no record has the id; the
resulting set is what gets persisted. -/
theorem publish_vote_spec (id : Nat) (votes : Votes) :
    (publish_vote id votes).length = votes.length ∧
    (∀ (i : Nat) (r : Vote), votes[i]? = some r → r.id = id →
      (publish_vote id votes)[i]? = some { r with public := true }) ∧
    (∀ (i : Nat) (r : Vote), votes[i]? = some r → r.id ≠ id →
      (publish_vote id votes)[i]? = some r) ∧
    ((∀ r ∈ votes, r.id ≠ id) → publish_vote id votes = votes) := by
  refine ⟨by simp [publish_vote], ?_, ?_, ?_⟩
  · intro i r h hid
    simp [publish_vote, List.getElem?_map, h, hid]
  · intro i r h hid
    simp [publish_vote, List.getElem?_map, h, hid]
  · intro h
    have : votes.map (fun r => if r.id = id then { r with public := true } else r)
        = votes.map (fun r => r) := by
      apply List.map_congr_left
      intro r hr
      simp [h r hr]
    simpa [publish_vote] using this

/-- C7 (witness): the theorem applied to the store
`[{0,"a",false},{1,"b",false}]` — publishing id `1` flips only the
second record, publishing the absent id `5` changes nothing. -/
theorem publish_vote_spec_witness :
    (publish_vote 1 [⟨0, "a", false⟩, ⟨1, "b", false⟩])[1]? = some ⟨1, "b", true⟩ ∧
    (publish_vote 1 [⟨0, "a", false⟩, ⟨1, "b", false⟩])[0]? = some ⟨0, "a", false⟩ ∧
    publish_vote 5 [⟨0, "a", false⟩, ⟨1, "b", false⟩]
      = [⟨0, "a", false⟩, ⟨1, "b", false⟩] :=
  ⟨(publish_vote_spec 1 _).2.1 1 ⟨1, "b", false⟩ rfl rfl,
   (publish_vote_spec 1 _).2.2.1 0 ⟨0, "a", false⟩ rfl (by decide),
   (publish_vote_spec 5 _).2.2.2 (by decide)⟩

/-- C8: `Discovered` always (and idempotently) inserts each discovered
peer into the gossip peer view; `Expired` removes an expired peer from
the view only when no remaining live discovery record lists it — in
particular a peer discovered through two records keeps its place in the
view when a belated `Expired` retires only the first record. -/
theorem inject_event_mdns_spec :
    (∀ (st : MdnsState) (l : List Peer) (p : Peer), p ∈ l →
      p ∈ (inject_event_mdns st (.discovered l)).view) ∧
    (∀ (st : MdnsState) (p : Peer),
      (inject_event_mdns (inject_event_mdns st (.discovered [p]))
          (.discovered [p])).view
        = (inject_event_mdns st (.discovered [p])).view) ∧
    (∀ (st : MdnsState) (l : List Peer) (p : Peer), p ∈ st.view →
      (st.records.diff l).contains p = true →
      p ∈ (inject_event_mdns st (.expired l)).view) ∧
    "A" ∈ (inject_event_mdns (inject_event_mdns (inject_event_mdns
        ⟨[], []⟩ (.discovered ["A"])) (.discovered ["A"])) (.expired ["A"])).view := by
  refine ⟨?_, ?_, ?_, ?_⟩
  · intro st l p hp
    exact mem_foldl_add_of_mem_list l st.view p hp
  · intro st p
    simp [inject_event_mdns, add_to_view_idem]
  · intro st l p hview hrec
    exact mem_foldl_expired_keep l (st.records.diff l) st.view p hview hrec
  · decide

/-- C8 (witness): the guarded-removal conjunct applied to a concrete
state in which a live record still lists the expiring peer. -/
theorem inject_event_mdns_spec_witness :
    "B" ∈ (inject_event_mdns ⟨["B", "B"], ["B"]⟩ (.expired ["B"])).view :=
  inject_event_mdns_spec.2.2.1 ⟨["B", "B"], ["B"]⟩ ["B"] "B" (by decide) (by decide)

/-- C9: writing a `RecordSet` with `write_local_votes` and reading the
resulting file content back with `read_local_votes` returns the same
ordered sequence of records — the serialize/deserialize round trip
through the persisted file is the identity. -/
theorem store_round_trip (s : Votes) :
    read_local_votes (.ok (write_local_votes s)) = .ok s := by
  simp [read_local_votes, write_local_votes, decodeVotes_encodeVotes]

/-- C10: every serialized `ListResponse` also decodes successfully as a
`ListRequest` with the same mode (the request decoder ignores the extra
`data` and `receiver` fields), while it still decodes as a
`ListResponse`; the handler therefore sees both decodes succeed and only
its response-first decode order keeps such a payload out of the request
branch — it takes the response branch, logging when self-addressed and
doing nothing otherwise. -/
theorem response_decodes_as_request (selfId source : String) (r : ListResponse) :
    decodeListRequest (encodeListResponse r) = some ⟨r.mode⟩ ∧
    decodeListResponse (encodeListResponse r) = some r ∧
    inject_event_floodsub selfId source (encodeListResponse r) =
      (if r.receiver = selfId then [Effect.logInfo] else []) := by
  refine ⟨decodeListRequest_encodeListResponse r,
    decodeListResponse_encodeListResponse r, ?_⟩
  simp [inject_event_floodsub, decodeListResponse_encodeListResponse r]

end VotingDapp
